import Mathlib

/-!
Verification development for the JSON → XLSX conversion service
(`src/python_agent_api/main.py`).

The Python program is shallowly embedded below.  Pure fragments of the
program become Lean functions; the mutable registry of generated files
(`temp_files`) becomes explicit state passing; fallible code returns
`Option` / an explicit outcome type.  Library calls made by the program
(`pd.json_normalize`, `DataFrame.to_excel` through `pd.ExcelWriter` with
the openpyxl engine) are embedded according to their documented behaviour,
which is stated in the comment next to each definition.  The binary XLSX
encoding itself is out of scope: a workbook is modelled as an ordered list
of named cell grids, which is exactly the information `to_excel` commits
to a sheet.
-/

namespace WebApp

/-! ## JSON data model

`json.loads` produces: `None`, booleans, numbers, strings, lists, and
string-keyed dicts (insertion ordered).  Numbers are embedded as `Int`;
no claim distinguishes numeric subtypes.  -/

inductive Scalar where
  | null
  | bool (b : Bool)
  | int (n : Int)
  | str (s : String)
deriving DecidableEq

inductive JsonValue where
  | scalar (s : Scalar)
  | arr (xs : List JsonValue)
  | obj (kvs : List (String × JsonValue))

/-- Whether the value is a Python `dict`. -/
def JsonValue.isObj : JsonValue → Bool
  | .obj _ => true
  | _ => false

/-- Whether the value is a scalar (not a `dict` and not a `list`);
this is the `else` branch of the key loop in `direct_json_to_excel`. -/
def JsonValue.isScalar : JsonValue → Bool
  | .scalar _ => true
  | _ => false

/-- The key/value pairs of a `dict` value (and `[]` otherwise). -/
def JsonValue.objKVs : JsonValue → List (String × JsonValue)
  | .obj kvs => kvs
  | _ => []

/-! ## Flattening (`pd.json_normalize` / pandas `nested_to_record`)

`pd.json_normalize` flattens every `dict`-valued entry recursively,
joining keys with `"."`; non-`dict` values (scalars and lists) are kept
as terminal cell values.  A key whose value is an empty `dict` vanishes
(its recursive flattening contributes no columns).  -/

/-- A terminal cell payload produced by flattening: a scalar, or a JSON
list kept whole as a single value (pandas does not explode nested lists
into rows). -/
inductive FlatVal where
  | sc (s : Scalar)
  | lst (xs : List JsonValue)

/-- The flattened column name of key `k` under optional dotted prefix
`pre`. -/
def dotKey (pre : Option String) (k : String) : String :=
  match pre with
  | none => k
  | some q => q ++ "." ++ k

mutual
/-- Embeds pandas `nested_to_record` (the flattening core of
`pd.json_normalize`): `dict` values recurse with a dotted prefix, all
other values become terminal `(column, value)` pairs. -/
def nested_to_record : Option String → List (String × JsonValue) → List (String × FlatVal)
  | _, [] => []
  | pre, (k, v) :: rest => recordEntry pre k v ++ nested_to_record pre rest

/-- The flattened pairs contributed by the single entry `k: v`. -/
def recordEntry (pre : Option String) (k : String) : JsonValue → List (String × FlatVal)
  | .obj o => nested_to_record (some (dotKey pre k)) o
  | .arr xs => [(dotKey pre k, .lst xs)]
  | .scalar s => [(dotKey pre k, .sc s)]
end

/-- Appends `k` to `acc` unless already present: used to accumulate the
union of column names in first-seen order, the order in which pandas
grows a DataFrame's column index. -/
def insertNew (acc : List String) (k : String) : List String :=
  if k ∈ acc then acc else acc ++ [k]

/-- First-seen-order deduplication of a list of names. -/
def firstDedup (l : List String) : List String :=
  l.foldl insertNew []

/-- A DataFrame as produced by `pd.json_normalize`: the union of the
flattened column names, and one flat record per input element. -/
structure Frame where
  columns : List String
  rows : List (List (String × FlatVal))

/-- Embeds `pd.json_normalize(data)` for a list argument.
Library behaviour: an empty list yields an empty DataFrame; a non-empty
list in which every element is a `dict` yields one flattened record per
element with the column union; a non-empty list containing a non-`dict`
element raises (`'...' object has no attribute 'values'` in the
any()-probe, or `... has no attribute 'items'` in `nested_to_record`),
modelled as `none`. -/
def json_normalize (xs : List JsonValue) : Option Frame :=
  if xs.isEmpty then some ⟨[], []⟩
  else if xs.all JsonValue.isObj then
    some ⟨firstDedup ((xs.map (fun x => nested_to_record none x.objKVs)).flatMap
            (List.map Prod.fst)),
          xs.map (fun x => nested_to_record none x.objKVs)⟩
  else
    none

/-! ## Rendered sheets (`DataFrame.to_excel` through `pd.ExcelWriter`)

`to_excel(writer, sheet_name=..., index=False)` writes, starting at cell
A1, a header row holding the column names followed by one row per record;
a missing value (`NaN`, from a key absent in that record) is written as
an empty cell.  -/

inductive Cell where
  | blank
  | text (s : String)
  | value (v : FlatVal)

/-- Cell grid of one sheet (row-major, row 0 = header row). -/
abbrev Grid := List (List Cell)

/-- One rendered data row: the record's value under each column, blank
where the record has no such key. -/
def renderRow (cols : List String) (r : List (String × FlatVal)) : List Cell :=
  cols.map fun c =>
    match r.lookup c with
    | some v => Cell.value v
    | none => Cell.blank

/-- The full rendered grid of a frame: header row, then data rows. -/
def renderGrid (fr : Frame) : Grid :=
  (fr.columns.map Cell.text) :: fr.rows.map (renderRow fr.columns)

/-- Overlay of one written row on the pre-existing cells of that row:
the newly written cells replace the old ones position by position, old
cells beyond the written width survive. -/
def overlayRow (old new : List Cell) : List Cell :=
  new ++ old.drop new.length

/-- Overlay of a newly written grid on a sheet's pre-existing grid.
Library behaviour: in write mode, a second `to_excel` call naming an
existing sheet reuses that sheet and writes its rectangle over the
existing cells starting at A1 (pandas `OpenpyxlWriter._write_cells`). -/
def overlay : Grid → Grid → Grid
  | old, [] => old
  | [], n :: ns => n :: overlay [] ns
  | o :: os, n :: ns => overlayRow o n :: overlay os ns

/-- A workbook under construction: the sheets in creation order. -/
abbrev Workbook := List (String × Grid)

/-- Embeds one `df.to_excel(writer, sheet_name=name, index=False)` call:
a fresh name appends a sheet, an existing name is overlaid in place. -/
def writeSheet (wb : Workbook) (name : String) (g : Grid) : Workbook :=
  match wb with
  | [] => [(name, g)]
  | (n, g0) :: rest =>
    if n = name then (n, overlay g0 g) :: rest
    else (n, g0) :: writeSheet rest name g

/-- Sheet-name truncation `str(key)[:31]` (Excel's sheet-name limit);
Python slices by code point, hence the truncation of the character
list. -/
def sheetName31 (k : String) : String :=
  String.mk (k.data.take 31)

/-- The key loop of `direct_json_to_excel` for a top-level `dict`
(lines 132-145): each list value and each dict value gets a sheet named
after its (truncated) key, each scalar value is written as the one-row
frame `{key: value}` to the sheet `'Summary'`.  `none` models an
exception escaping the loop (a list value `pd.json_normalize` cannot
process). -/
def dict_sheets : List (String × JsonValue) → Workbook → Option Workbook
  | [], wb => some wb
  | (k, v) :: rest, wb =>
    match v with
    | .arr xs =>
      (json_normalize xs).bind fun fr =>
        dict_sheets rest (writeSheet wb (sheetName31 k) (renderGrid fr))
    | .obj o =>
      (json_normalize [.obj o]).bind fun fr =>
        dict_sheets rest (writeSheet wb (sheetName31 k) (renderGrid fr))
    | .scalar s =>
      dict_sheets rest (writeSheet wb "Summary" (renderGrid ⟨[k], [[(k, .sc s)]]⟩))

/-- Embeds `direct_json_to_excel` (lines 113-155), at the level of the
workbook it commits: a list becomes one `'Data'` sheet via
`pd.json_normalize`, a dict becomes one sheet per key via the loop above,
a scalar becomes the single-cell frame `{'value': data}` on a `'Data'`
sheet.  Library behaviour folded into the dict branch: closing the
`pd.ExcelWriter` with no sheet written raises (openpyxl refuses to save
a sheetless workbook), so an empty dict yields `none`. -/
def direct_json_to_excel : JsonValue → Option Workbook
  | .arr xs => (json_normalize xs).map fun fr => [("Data", renderGrid fr)]
  | .obj kvs =>
    (dict_sheets kvs []).bind fun wb =>
      if wb.isEmpty then none else some wb
  | .scalar s => some [("Data", renderGrid ⟨["value"], [[("value", .sc s)]]⟩)]

/-! ## Conversion strategy selection (`convert_json_with_agno`, lines 160-218)

The function first takes `json_size = len(json_data)`.  Over 100000
characters it returns `None` before an agent is even created, which the
caller treats as the direct-conversion signal; over 50000 it writes the
payload to a scratch file and hands the producer the path; otherwise it
embeds the payload in the instruction text. -/

inductive Strategy where
  | DIRECT
  | DELEGATED_BY_REFERENCE
  | DELEGATED_INLINE
deriving DecidableEq

/-- The size-tiered strategy choice of `convert_json_with_agno`; it
consults nothing but `len(json_data)`. -/
def convert_strategy (json_data : String) : Strategy :=
  let json_size := json_data.length
  if json_size > 100000 then .DIRECT
  else if json_size > 50000 then .DELEGATED_BY_REFERENCE
  else .DELEGATED_INLINE

/-! ## Filename policy (`direct_json_to_excel`, lines 119-121)

`safe_filename = "".join(c for c in file_name if c.isalnum() or c in (' ', '-', '_')).strip()`
`xlsx_filename = f"{safe_filename}_processed.xlsx"`

Python's `str.isalnum` is Unicode-aware; the embedding abstracts it as a
parameter `alnum : Char → Bool` (instantiated with `Char.isAlphanum`,
which agrees with Python on the ASCII range, wherever a concrete value
is needed). -/

/-- Python `str.strip`'s whitespace class (ASCII part). -/
def pyIsSpace (c : Char) : Bool :=
  c = ' ' || c = '\t' || c = '\n' || c = '\r' || c = '\x0b' || c = '\x0c'

/-- Character class kept by the sanitizing join. -/
def keepChar (alnum : Char → Bool) (c : Char) : Bool :=
  alnum c || c = ' ' || c = '-' || c = '_'

/-- Python `str.strip()` on a character list: drop leading and trailing
whitespace. -/
def stripList (l : List Char) : List Char :=
  (((l.dropWhile pyIsSpace).reverse.dropWhile pyIsSpace)).reverse

/-- The sanitized base name `safe_filename`. -/
def safe_filename (alnum : Char → Bool) (file_name : String) : String :=
  String.mk (stripList (file_name.data.filter (keepChar alnum)))

/-- The produced workbook filename `xlsx_filename`. -/
def xlsx_filename (alnum : Char → Bool) (file_name : String) : String :=
  safe_filename alnum file_name ++ "_processed.xlsx"

/-! ## The request pipeline (`process_json_data`, lines 241-384)

The payload has already passed `json.loads` validation, so the embedding
takes the parsed `JsonValue`.  What the delegated producer did is an
input of the model (it is an opaque external agent):
either `convert_json_with_agno` raised, or it returned `None` (the
large-payload / RecursionError signal), or it returned a response string
after which the directory diff found the given set of new workbook
files. -/

inductive DelegationOutcome where
  | raised (msg : String)
  | signaledDirect
  | content (resp : String) (newFiles : List String)

/-- The outward result of one request, at the granularity the claims
speak about: the success flag, the reported workbook filename, the
sheets of the workbook the request produced (when the direct converter
produced it; an AI-produced file's content is outside the model), and
the `ai_analysis` note. -/
structure Response where
  success : Bool
  file_name : Option String
  sheets : Option Workbook
  ai_analysis : Option String

/-- Response of the direct-conversion path: on success the stored file,
its `xlsx_filename`, and a note; a failure of `direct_json_to_excel`
escapes to the outermost handler (line 379), which answers
`success=False`. -/
def directResponse (v : JsonValue) (name : String) (note : String) : Response :=
  match direct_json_to_excel v with
  | some wb => ⟨true, some (xlsx_filename Char.isAlphanum name), some wb, some note⟩
  | none => ⟨false, none, none, none⟩

/-- Embeds `process_json_data` after JSON validation.  The three
annotation strings are the ones the handler writes into `ai_analysis`.
In the branch where the producer did leave new files, the handler
registers the newest one; its sheets are not modelled (opaque producer)
and no claim depends on the newest-by-mtime tie-break. -/
def process_json_data (v : JsonValue) (name : String) (d : DelegationOutcome) : Response :=
  match d with
  | .raised msg =>
    directResponse v name ("Fallback conversion used due to: " ++ msg)
  | .signaledDirect =>
    directResponse v name "Direct conversion used for large JSON data"
  | .content resp newFiles =>
    match newFiles with
    | [] => directResponse v name "Direct conversion used - AI did not create output file"
    | f :: _ => ⟨true, some f, none, some resp⟩

/-- The strategy-independent shape of a response: everything except the
annotation text (and the fresh file id, which is not modelled). -/
def shapeOf (r : Response) : Bool × Option String × Option Workbook :=
  (r.success, r.file_name, r.sheets)

/-! ## The artifact store (`temp_files`) and its operations

`temp_files` is a dict from file id to `{'path': ..., 'filename': ...,
'created_at': ..., 'original_json': ...}`; the fields the claims touch
are `path` and `filename`.  The registry is embedded as an association
list with (invariantly) pairwise distinct ids, the disk as the set of
paths that currently exist, plus — for `cleanup_all_files` — the set of
paths whose `os.remove` raises. -/

structure FileInfo where
  path : String
  filename : String
deriving DecidableEq

structure StoreState where
  registry : List (String × FileInfo)
  disk : List String

/-- Removal of one id from the registry (`del temp_files[file_id]`;
ids are unique in a Python dict, so removing every binding of the id is
the same operation). -/
def delEntry (reg : List (String × FileInfo)) (file_id : String) : List (String × FileInfo) :=
  reg.filter (fun e => decide (e.1 ≠ file_id))

inductive DownloadResult where
  | notFound
  | fileResp (path filename : String)
deriving DecidableEq

/-- Embeds `download_file` (lines 386-406): unknown id → 404; known id
whose backing file is gone → prune the stale entry and 404; otherwise a
`FileResponse` with the stored path and display filename. -/
def download_file (st : StoreState) (file_id : String) : DownloadResult × StoreState :=
  match st.registry.lookup file_id with
  | none => (.notFound, st)
  | some info =>
    if info.path ∈ st.disk then (.fileResp info.path info.filename, st)
    else (.notFound, ⟨delEntry st.registry file_id, st.disk⟩)

/-- Embeds the enumeration `list_files` (lines 408-426), at the
granularity C7 needs: the ids it reports. -/
def list_files (st : StoreState) : List String :=
  st.registry.map Prod.fst

/-! ## Bulk cleanup (`cleanup_all_files`, lines 428-450) -/

inductive CleanupOutcome where
  | ok (files_deleted : Nat)
  | err
deriving DecidableEq

/-- Disk state for cleanup: which paths exist, and which existing paths
make `os.remove` raise (e.g. a permission error). -/
structure CleanupState where
  registry : List (String × FileInfo)
  disk : List String
  badPaths : List String

/-- The loop of `cleanup_all_files` over the snapshot
`list(temp_files.items())`: an existing file is removed and counted, a
missing file is skipped, and the entry is deleted — but a raising
`os.remove` propagates to the handler's `except`, aborting the loop with
the failing entry (and all later ones) still registered. -/
def cleanup_loop :
    List (String × FileInfo) → CleanupState → Nat → CleanupOutcome × CleanupState
  | [], st, n => (.ok n, st)
  | (fid, info) :: rest, st, n =>
    if info.path ∈ st.disk then
      if info.path ∈ st.badPaths then (.err, st)
      else
        cleanup_loop rest
          ⟨delEntry st.registry fid, st.disk.erase info.path, st.badPaths⟩ (n + 1)
    else
      cleanup_loop rest ⟨delEntry st.registry fid, st.disk, st.badPaths⟩ n

/-- Embeds `cleanup_all_files`. -/
def cleanup_all_files (st : CleanupState) : CleanupOutcome × CleanupState :=
  cleanup_loop st.registry st 0

/-- The number of files the loop physically deletes when no `os.remove`
raises: an entry counts exactly when its path is (still) on disk when
its turn comes. -/
def countDel : List (String × FileInfo) → List String → Nat
  | [], _ => 0
  | (_, info) :: rest, disk =>
    if info.path ∈ disk then countDel rest (disk.erase info.path) + 1
    else countDel rest disk

/-! ## Recursion-depth model (line 25 and the structuring path)

`main.py` raises the interpreter recursion limit to 10000
(`sys.setrecursionlimit(10000)`) because the structuring path works by
call recursion: `json.loads` descends once per nesting level while
parsing, and pandas `nested_to_record` descends once per dict level
while flattening.  `parseDepth` counts those stack frames: one per
nesting level of the value. -/

def recursionLimit : Nat := 10000

mutual
/-- Call depth needed to decode/flatten a value: one frame per nesting
level. -/
def parseDepth : JsonValue → Nat
  | .scalar _ => 1
  | .arr xs => 1 + parseDepthList xs
  | .obj kvs => 1 + parseDepthKVs kvs

def parseDepthList : List JsonValue → Nat
  | [] => 0
  | x :: xs => max (parseDepth x) (parseDepthList xs)

def parseDepthKVs : List (String × JsonValue) → Nat
  | [] => 0
  | (_, v) :: kvs => max (parseDepth v) (parseDepthKVs kvs)
end

/-- The `n`-fold nested singleton list `[[[...null...]]]`, a valid JSON
value of nesting depth `n`. -/
def nestArr : Nat → JsonValue
  | 0 => .scalar .null
  | n + 1 => .arr [nestArr n]

/-! ## Auxiliary notions used to state the claims -/

/-- Navigation to a nested position: `getPath v [a, b, c]` is the value
at key path `a.b.c` (through dicts only). -/
def getPath : JsonValue → List String → Option JsonValue
  | v, [] => some v
  | .obj kvs, k :: p =>
    (match kvs.lookup k with
     | some v => getPath v p
     | none => none)
  | .scalar _, _ :: _ => none
  | .arr _, _ :: _ => none

/-- Dotted join of a key path, `joinDots [a, b, c] = "a.b.c"`. -/
def joinDots : List String → String
  | [] => ""
  | [k] => k
  | k :: p => k ++ "." ++ joinDots p

/-- The sheet name one top-level dict entry is written to. -/
def sheetNameOf (p : String × JsonValue) : String :=
  if p.2.isScalar then "Summary" else sheetName31 p.1

/-- The last scalar-valued entry of a top-level dict, in insertion
order. -/
def lastScalar : List (String × JsonValue) → Option (String × Scalar)
  | [] => none
  | (k, v) :: rest =>
    match lastScalar rest with
    | some p => some p
    | none =>
      match v with
      | .scalar s => some (k, s)
      | _ => none

/-- The grid the `'Summary'` sheet holds after the one-row frame
`{k: s}` is written to it. -/
def summaryGrid (k : String) (s : Scalar) : Grid :=
  [[Cell.text k], [Cell.value (.sc s)]]

/-- A concrete payload string of length `n`. -/
def strOfLen (n : Nat) : String :=
  String.mk (List.replicate n 'a')

/-! ## Helper lemmas -/

theorem strOfLen_length (n : Nat) : (strOfLen n).length = n := by
  show (List.replicate n 'a').length = n
  simp

theorem mem_of_lookup {α β : Type} [BEq α] [LawfulBEq α] :
    ∀ {l : List (α × β)} {k : α} {v : β}, l.lookup k = some v → (k, v) ∈ l := by
  intro l
  induction l with
  | nil => intro k v h; simp [List.lookup] at h
  | cons e l ih =>
    intro k v h
    rw [List.lookup] at h
    cases hbe : k == e.1 with
    | false =>
      simp only [hbe] at h
      exact List.mem_cons_of_mem _ (ih h)
    | true =>
      simp only [hbe] at h
      have hk : k = e.1 := eq_of_beq hbe
      subst hk
      cases h
      exact List.mem_cons_self _ _

theorem mem_foldl_insertNew :
    ∀ (l acc : List String) (c : String),
      c ∈ l.foldl insertNew acc ↔ c ∈ acc ∨ c ∈ l := by
  intro l
  induction l with
  | nil => simp
  | cons a l ih =>
    intro acc c
    rw [List.foldl_cons, ih]
    unfold insertNew
    by_cases ha : a ∈ acc
    · rw [if_pos ha]
      constructor
      · rintro (h | h)
        · exact Or.inl h
        · exact Or.inr (List.mem_cons_of_mem _ h)
      · rintro (h | h)
        · exact Or.inl h
        · rcases List.mem_cons.mp h with rfl | h
          · exact Or.inl ha
          · exact Or.inr h
    · rw [if_neg ha]
      simp only [List.mem_append, List.mem_singleton, List.mem_cons]
      tauto

theorem mem_firstDedup (l : List String) (c : String) :
    c ∈ firstDedup l ↔ c ∈ l := by
  unfold firstDedup
  rw [mem_foldl_insertNew]
  simp

theorem nodup_insertNew {acc : List String} (h : acc.Nodup) (k : String) :
    (insertNew acc k).Nodup := by
  unfold insertNew
  by_cases hk : k ∈ acc
  · rw [if_pos hk]; exact h
  · rw [if_neg hk]
    simp [List.nodup_append, h, hk]

theorem nodup_foldl_insertNew :
    ∀ (l acc : List String), acc.Nodup → (l.foldl insertNew acc).Nodup := by
  intro l
  induction l with
  | nil => intro acc h; exact h
  | cons a l ih => intro acc h; exact ih _ (nodup_insertNew h a)

theorem head?_dropWhile {p : Char → Bool} :
    ∀ (l : List Char) (c : Char), (l.dropWhile p).head? = some c → p c = false := by
  intro l
  induction l with
  | nil => intro c h; simp [List.dropWhile] at h
  | cons a l ih =>
    intro c h
    by_cases hp : p a
    · rw [List.dropWhile_cons_of_pos hp] at h
      exact ih c h
    · rw [List.dropWhile_cons_of_neg hp] at h
      simp at h
      subst h
      exact Bool.not_eq_true _ ▸ (by simpa using hp)

theorem dropWhile_suffix' (p : Char → Bool) :
    ∀ l : List Char, l.dropWhile p <:+ l := by
  intro l
  induction l with
  | nil => simp
  | cons a l ih =>
    by_cases hp : p a
    · rw [List.dropWhile_cons_of_pos hp]
      exact ih.trans (List.suffix_cons a l)
    · rw [List.dropWhile_cons_of_neg hp]

theorem head?_of_pre {l₁ l₂ : List Char} (h : l₁ <+: l₂) {c : Char}
    (hc : l₁.head? = some c) : l₂.head? = some c := by
  obtain ⟨t, rfl⟩ := h
  cases l₁ with
  | nil => simp at hc
  | cons a l => simpa using hc

theorem stripList_pre (l : List Char) :
    stripList l <+: l.dropWhile pyIsSpace := by
  unfold stripList
  have h1 := dropWhile_suffix' pyIsSpace (l.dropWhile pyIsSpace).reverse
  have h2 := List.reverse_prefix.mpr h1
  rwa [List.reverse_reverse] at h2

theorem stripList_sublist (l : List Char) : (stripList l).Sublist l :=
  ((stripList_pre l).sublist).trans (List.dropWhile_sublist _)

theorem renderGrid_summary (k : String) (s : Scalar) :
    renderGrid ⟨[k], [[(k, .sc s)]]⟩ = summaryGrid k s := by
  simp [renderGrid, renderRow, summaryGrid, List.lookup]

theorem overlay_summaryGrid (k₁ k₂ : String) (s₁ s₂ : Scalar) :
    overlay (summaryGrid k₁ s₁) (summaryGrid k₂ s₂) = summaryGrid k₂ s₂ := rfl

theorem writeSheet_names (wb : Workbook) (name : String) (g : Grid) :
    (writeSheet wb name g).map Prod.fst = insertNew (wb.map Prod.fst) name := by
  induction wb with
  | nil => simp [writeSheet, insertNew]
  | cons e rest ih =>
    obtain ⟨m, g0⟩ := e
    rw [writeSheet]
    by_cases hm : m = name
    · subst hm
      rw [if_pos rfl]
      simp [insertNew]
    · rw [if_neg hm]
      simp only [List.map_cons, ih]
      unfold insertNew
      by_cases hn : name ∈ rest.map Prod.fst
      · rw [if_pos hn, if_pos (List.mem_cons_of_mem _ hn)]
      · rw [if_neg hn, if_neg ?_]
        · simp
        · intro hc
          rcases List.mem_cons.mp hc with h | h
          · exact hm h.symm
          · exact hn h

theorem lookup_writeSheet_ne (wb : Workbook) (name n : String) (g : Grid)
    (h : n ≠ name) : (writeSheet wb name g).lookup n = wb.lookup n := by
  induction wb with
  | nil =>
    have hb : (n == name) = false := by simp [h]
    simp [writeSheet, List.lookup, hb]
  | cons e rest ih =>
    obtain ⟨m, g0⟩ := e
    rw [writeSheet]
    by_cases hm : m = name
    · subst hm
      rw [if_pos rfl, List.lookup_cons, List.lookup_cons]
      have hb : (n == m) = false := by simp [h]
      simp [hb]
    · rw [if_neg hm, List.lookup_cons, List.lookup_cons]
      cases hbe : n == m <;> simp [hbe, ih]

theorem lookup_writeSheet_self (wb : Workbook) (name : String) (g : Grid) :
    (writeSheet wb name g).lookup name =
      some (match wb.lookup name with
            | some g0 => overlay g0 g
            | none => g) := by
  induction wb with
  | nil => simp [writeSheet, List.lookup]
  | cons e rest ih =>
    obtain ⟨m, g0⟩ := e
    rw [writeSheet]
    by_cases hm : m = name
    · subst hm
      rw [if_pos rfl, List.lookup_cons, List.lookup_cons]
      simp [beq_self_eq_true]
    · rw [if_neg hm, List.lookup_cons, List.lookup_cons]
      have hb : (name == m) = false := by
        simp
        exact fun hc => hm hc.symm
      simp [hb, ih]

theorem dict_sheets_names :
    ∀ (kvs : List (String × JsonValue)) (wb wb' : Workbook),
      dict_sheets kvs wb = some wb' →
      wb'.map Prod.fst = (kvs.map sheetNameOf).foldl insertNew (wb.map Prod.fst) := by
  intro kvs
  induction kvs with
  | nil =>
    intro wb wb' h
    cases h
    simp
  | cons e rest ih =>
    obtain ⟨k, v⟩ := e
    intro wb wb' h
    cases v with
    | scalar s =>
      rw [dict_sheets] at h
      rw [ih _ _ h, writeSheet_names]
      simp [sheetNameOf, JsonValue.isScalar]
    | obj o =>
      rw [dict_sheets] at h
      cases hjn : json_normalize [.obj o] with
      | none => rw [hjn] at h; simp at h
      | some fr =>
        rw [hjn, Option.some_bind] at h
        rw [ih _ _ h, writeSheet_names]
        simp [sheetNameOf, JsonValue.isScalar]
    | arr xs =>
      rw [dict_sheets] at h
      cases hjn : json_normalize xs with
      | none => rw [hjn] at h; simp at h
      | some fr =>
        rw [hjn, Option.some_bind] at h
        rw [ih _ _ h, writeSheet_names]
        simp [sheetNameOf, JsonValue.isScalar]

theorem lastScalar_cons_of_some {rest : List (String × JsonValue)}
    {p : String × Scalar} (h : lastScalar rest = some p) (k : String) (v : JsonValue) :
    lastScalar ((k, v) :: rest) = some p := by
  show (match lastScalar rest with
        | some p => some p
        | none =>
          match v with
          | .scalar s => some (k, s)
          | _ => none) = some p
  rw [h]

theorem lastScalar_cons_scalar_of_none {rest : List (String × JsonValue)}
    (h : lastScalar rest = none) (k : String) (s : Scalar) :
    lastScalar ((k, .scalar s) :: rest) = some (k, s) := by
  show (match lastScalar rest with
        | some p => some p
        | none => some (k, s)) = some (k, s)
  rw [h]

theorem lastScalar_cons_obj_of_none {rest : List (String × JsonValue)}
    (h : lastScalar rest = none) (k : String) (o : List (String × JsonValue)) :
    lastScalar ((k, .obj o) :: rest) = none := by
  show (match lastScalar rest with
        | some p => some p
        | none => (none : Option (String × Scalar))) = none
  rw [h]

theorem lastScalar_cons_arr_of_none {rest : List (String × JsonValue)}
    (h : lastScalar rest = none) (k : String) (xs : List JsonValue) :
    lastScalar ((k, .arr xs) :: rest) = none := by
  show (match lastScalar rest with
        | some p => some p
        | none => (none : Option (String × Scalar))) = none
  rw [h]

theorem dict_sheets_summary :
    ∀ (kvs : List (String × JsonValue)) (wb wb' : Workbook),
      (∀ p ∈ kvs, p.2.isScalar = false → sheetName31 p.1 ≠ "Summary") →
      (wb.lookup "Summary" = none ∨ ∃ k s, wb.lookup "Summary" = some (summaryGrid k s)) →
      dict_sheets kvs wb = some wb' →
      wb'.lookup "Summary" =
        (match lastScalar kvs with
         | some (k, s) => some (summaryGrid k s)
         | none => wb.lookup "Summary") := by
  intro kvs
  induction kvs with
  | nil =>
    intro wb wb' _ _ h
    cases h
    simp [lastScalar]
  | cons e rest ih =>
    obtain ⟨k, v⟩ := e
    intro wb wb' hNS hwb h
    cases v with
    | scalar s =>
      rw [dict_sheets, renderGrid_summary] at h
      have hlook : (writeSheet wb "Summary" (summaryGrid k s)).lookup "Summary"
          = some (summaryGrid k s) := by
        rw [lookup_writeSheet_self]
        rcases hwb with h0 | ⟨k0, s0, h0⟩
        · rw [h0]
        · rw [h0]
          exact congrArg some (overlay_summaryGrid k0 k s0 s)
      have hrec := ih _ _ (fun p hp => hNS p (List.mem_cons_of_mem _ hp))
        (Or.inr ⟨k, s, hlook⟩) h
      rw [hrec]
      cases hls : lastScalar rest with
      | some p =>
        obtain ⟨a, b⟩ := p
        rw [lastScalar_cons_of_some hls]
      | none =>
        rw [lastScalar_cons_scalar_of_none hls]
        exact hlook
    | obj o =>
      rw [dict_sheets] at h
      cases hjn : json_normalize [.obj o] with
      | none => rw [hjn] at h; simp at h
      | some fr =>
        rw [hjn, Option.some_bind] at h
        have hname : sheetName31 k ≠ "Summary" :=
          hNS (k, .obj o) (List.mem_cons_self _ _) rfl
        have hlk : (writeSheet wb (sheetName31 k) (renderGrid fr)).lookup "Summary"
            = wb.lookup "Summary" :=
          lookup_writeSheet_ne _ _ _ _ (Ne.symm hname)
        have hrec := ih _ _ (fun p hp => hNS p (List.mem_cons_of_mem _ hp))
          (by rw [hlk]; exact hwb) h
        rw [hrec, hlk]
        cases hls : lastScalar rest with
        | some p =>
          obtain ⟨a, b⟩ := p
          rw [lastScalar_cons_of_some hls]
        | none =>
          rw [lastScalar_cons_obj_of_none hls]
    | arr xs =>
      rw [dict_sheets] at h
      cases hjn : json_normalize xs with
      | none => rw [hjn] at h; simp at h
      | some fr =>
        rw [hjn, Option.some_bind] at h
        have hname : sheetName31 k ≠ "Summary" :=
          hNS (k, .arr xs) (List.mem_cons_self _ _) rfl
        have hlk : (writeSheet wb (sheetName31 k) (renderGrid fr)).lookup "Summary"
            = wb.lookup "Summary" :=
          lookup_writeSheet_ne _ _ _ _ (Ne.symm hname)
        have hrec := ih _ _ (fun p hp => hNS p (List.mem_cons_of_mem _ hp))
          (by rw [hlk]; exact hwb) h
        rw [hrec, hlk]
        cases hls : lastScalar rest with
        | some p =>
          obtain ⟨a, b⟩ := p
          rw [lastScalar_cons_of_some hls]
        | none =>
          rw [lastScalar_cons_arr_of_none hls]

theorem direct_obj_elim {kvs : List (String × JsonValue)} {wb : Workbook}
    (h : direct_json_to_excel (.obj kvs) = some wb) :
    dict_sheets kvs [] = some wb ∧ wb ≠ [] := by
  rw [direct_json_to_excel] at h
  cases hds : dict_sheets kvs [] with
  | none => rw [hds] at h; simp at h
  | some wb0 =>
    rw [hds, Option.some_bind] at h
    by_cases he : wb0.isEmpty = true
    · rw [if_pos he] at h; simp at h
    · rw [if_neg he] at h
      cases h
      refine ⟨rfl, ?_⟩
      intro hc
      exact he (by simp [hc])

theorem lastScalar_none_iff :
    ∀ kvs : List (String × JsonValue),
      lastScalar kvs = none ↔ ∀ p ∈ kvs, p.2.isScalar = false := by
  intro kvs
  induction kvs with
  | nil => simp [lastScalar]
  | cons e rest ih =>
    obtain ⟨k, v⟩ := e
    cases hls : lastScalar rest with
    | some p =>
      constructor
      · intro h
        rw [lastScalar_cons_of_some hls] at h
        cases h
      · intro h
        have h0 := ih.mpr (fun p hp => h p (List.mem_cons_of_mem _ hp))
        rw [hls] at h0
        cases h0
    | none =>
      have hrest := ih.mp hls
      cases v with
      | scalar s =>
        constructor
        · intro h
          rw [lastScalar_cons_scalar_of_none hls] at h
          cases h
        · intro h
          have := h (k, .scalar s) (List.mem_cons_self _ _)
          simp [JsonValue.isScalar] at this
      | obj o =>
        constructor
        · intro _ p hp
          rcases List.mem_cons.mp hp with rfl | hp
          · rfl
          · exact hrest p hp
        · intro _
          exact lastScalar_cons_obj_of_none hls k o
      | arr xs =>
        constructor
        · intro _ p hp
          rcases List.mem_cons.mp hp with rfl | hp
          · rfl
          · exact hrest p hp
        · intro _
          exact lastScalar_cons_arr_of_none hls k xs

theorem mem_recordEntry_nested (pre : Option String) :
    ∀ (kvs : List (String × JsonValue)) (k : String) (v : JsonValue),
      (k, v) ∈ kvs → ∀ x ∈ recordEntry pre k v, x ∈ nested_to_record pre kvs := by
  intro kvs
  induction kvs with
  | nil =>
    intro k v h
    cases h
  | cons e rest ih =>
    obtain ⟨k0, v0⟩ := e
    intro k v h x hx
    rw [nested_to_record]
    rcases List.mem_cons.mp h with he | hrest
    · cases he
      exact List.mem_append_left _ hx
    · exact List.mem_append_right _ (ih k v hrest x hx)

theorem getPath_nil (v : JsonValue) : getPath v [] = some v := by
  cases v <;> rfl

theorem getPath_obj_cons (kvs : List (String × JsonValue)) (k : String) (p : List String) :
    getPath (.obj kvs) (k :: p)
      = (match kvs.lookup k with
         | some v => getPath v p
         | none => none) := rfl

theorem getPath_scalar_mem :
    ∀ (p : List String) (kvs : List (String × JsonValue)) (pre : Option String) (s : Scalar),
      p ≠ [] → getPath (.obj kvs) p = some (.scalar s) →
      (dotKey pre (joinDots p), FlatVal.sc s) ∈ nested_to_record pre kvs := by
  intro p
  induction p with
  | nil =>
    intro kvs pre s h
    cases h rfl
  | cons k p ih =>
    intro kvs pre s _ hg
    rw [getPath_obj_cons] at hg
    cases hl : kvs.lookup k with
    | none =>
      simp [hl] at hg
    | some v =>
      simp only [hl] at hg
      cases hp : p with
      | nil =>
        subst hp
        rw [getPath_nil] at hg
        cases hg
        have hm := mem_of_lookup hl
        have hx : (dotKey pre k, FlatVal.sc s) ∈ recordEntry pre k (.scalar s) := by
          simp [recordEntry]
        have hmem := mem_recordEntry_nested pre kvs k (.scalar s) hm _ hx
        simpa [joinDots] using hmem
      | cons a q =>
        subst hp
        cases v with
        | scalar s0 =>
          cases hg
        | arr xs =>
          cases hg
        | obj o =>
          have hrec := ih o (some (dotKey pre k)) s (by simp) hg
          have hm := mem_of_lookup hl
          have hmem := mem_recordEntry_nested pre kvs k (.obj o) hm _ hrec
          have heq : dotKey pre (joinDots (k :: a :: q))
              = dotKey (some (dotKey pre k)) (joinDots (a :: q)) := by
            cases pre with
            | none =>
              show joinDots (k :: a :: q) = k ++ "." ++ joinDots (a :: q)
              rfl
            | some q0 =>
              show q0 ++ "." ++ joinDots (k :: a :: q)
                  = (q0 ++ "." ++ k) ++ "." ++ joinDots (a :: q)
              rw [show joinDots (k :: a :: q) = k ++ "." ++ joinDots (a :: q) from rfl]
              simp [String.append_assoc]
          rw [heq]
          exact hmem

theorem json_normalize_eq_of_all (xs : List JsonValue)
    (h : xs.all JsonValue.isObj = true) :
    json_normalize xs
      = some ⟨firstDedup ((xs.map (fun x => nested_to_record none x.objKVs)).flatMap
                (List.map Prod.fst)),
              xs.map (fun x => nested_to_record none x.objKVs)⟩ := by
  cases xs with
  | nil => rfl
  | cons x rest =>
    unfold json_normalize
    rw [if_neg (by simp : ¬((x :: rest).isEmpty = true)), if_pos h]

theorem renderRow_blank_iff (cols : List String) (r : List (String × FlatVal))
    (i : Nat) (c : String) (hc : cols[i]? = some c) :
    ((renderRow cols r)[i]? = some Cell.blank) ↔ r.lookup c = none := by
  unfold renderRow
  rw [List.getElem?_map, hc]
  cases hl : r.lookup c with
  | none => simp [hl]
  | some v => simp [hl]

theorem mem_delEntry {reg : List (String × FileInfo)} {id : String}
    {e : String × FileInfo} (h : e ∈ delEntry reg id) : e ∈ reg ∧ e.1 ≠ id := by
  unfold delEntry at h
  rw [List.mem_filter] at h
  exact ⟨h.1, by simpa using h.2⟩

theorem delEntry_cons_self {rest : List (String × FileInfo)} {fid : String}
    (info : FileInfo) (hnotin : fid ∉ rest.map Prod.fst) :
    delEntry ((fid, info) :: rest) fid = rest := by
  unfold delEntry
  rw [List.filter_cons]
  have h0 : (decide ((fid, info).1 ≠ fid)) = false := by simp
  rw [h0]
  simp only [Bool.false_eq_true, if_false]
  rw [List.filter_eq_self]
  intro e he
  have : e.1 ≠ fid := by
    intro hc
    exact hnotin (hc ▸ List.mem_map_of_mem Prod.fst he)
  simpa using this

theorem cleanup_loop_ok :
    ∀ (entries : List (String × FileInfo)) (st : CleanupState) (n : Nat),
      (∀ e ∈ entries, e.2.path ∉ st.badPaths) →
      (cleanup_loop entries st n).1 = .ok (n + countDel entries st.disk) := by
  intro entries
  induction entries with
  | nil =>
    intro st n _
    simp [cleanup_loop, countDel]
  | cons e rest ih =>
    obtain ⟨fid, info⟩ := e
    intro st n h
    have hnb : info.path ∉ st.badPaths := h (fid, info) (List.mem_cons_self _ _)
    rw [cleanup_loop]
    by_cases hd : info.path ∈ st.disk
    · rw [if_pos hd, if_neg hnb]
      have hrec := ih ⟨delEntry st.registry fid, st.disk.erase info.path, st.badPaths⟩
        (n + 1) (fun e he => h e (List.mem_cons_of_mem _ he))
      rw [hrec, countDel, if_pos hd]
      rw [show (⟨delEntry st.registry fid, st.disk.erase info.path, st.badPaths⟩ :
            CleanupState).disk = st.disk.erase info.path from rfl]
      congr 1
      omega
    · rw [if_neg hd]
      have hrec := ih ⟨delEntry st.registry fid, st.disk, st.badPaths⟩
        n (fun e he => h e (List.mem_cons_of_mem _ he))
      rw [hrec, countDel, if_neg hd]

theorem cleanup_loop_reg_nil :
    ∀ (entries : List (String × FileInfo)) (st : CleanupState) (n m : Nat),
      (cleanup_loop entries st n).1 = .ok m →
      (∀ e ∈ st.registry, e.1 ∈ entries.map Prod.fst) →
      (cleanup_loop entries st n).2.registry = [] := by
  intro entries
  induction entries with
  | nil =>
    intro st n m _ hsub
    rw [cleanup_loop]
    rw [List.eq_nil_iff_forall_not_mem]
    intro e he
    simpa using hsub e he
  | cons e rest ih =>
    obtain ⟨fid, info⟩ := e
    intro st n m h hsub
    rw [cleanup_loop] at h ⊢
    have hsub' : ∀ st' : CleanupState, st'.registry = delEntry st.registry fid →
        ∀ e ∈ st'.registry, e.1 ∈ rest.map Prod.fst := by
      intro st' hst' e he
      rw [hst'] at he
      obtain ⟨hmem, hne⟩ := mem_delEntry he
      have := hsub e hmem
      rw [List.map_cons] at this
      rcases List.mem_cons.mp this with hc | hc
      · exact absurd hc hne
      · exact hc
    by_cases hd : info.path ∈ st.disk
    · by_cases hb : info.path ∈ st.badPaths
      · rw [if_pos hd, if_pos hb] at h
        cases h
      · rw [if_pos hd, if_neg hb] at h ⊢
        exact ih _ _ m h (hsub' _ rfl)
    · rw [if_neg hd] at h ⊢
      exact ih _ _ m h (hsub' _ rfl)

theorem cleanup_loop_ok_or_err :
    ∀ (entries : List (String × FileInfo)) (disk bad : List String) (n : Nat),
      ((entries.map Prod.fst).Nodup) →
      (∃ m, (cleanup_loop entries ⟨entries, disk, bad⟩ n).1 = .ok m)
      ∨ ((cleanup_loop entries ⟨entries, disk, bad⟩ n).1 = .err
          ∧ (cleanup_loop entries ⟨entries, disk, bad⟩ n).2.registry ≠ []) := by
  intro entries
  induction entries with
  | nil =>
    intro disk bad n _
    exact Or.inl ⟨n, rfl⟩
  | cons e rest ih =>
    obtain ⟨fid, info⟩ := e
    intro disk bad n hnd
    rw [List.map_cons, List.nodup_cons] at hnd
    obtain ⟨hfid, hndrest⟩ := hnd
    rw [cleanup_loop]
    by_cases hd : info.path ∈ disk
    · by_cases hb : info.path ∈ bad
      · rw [if_pos hd, if_pos hb]
        refine Or.inr ⟨rfl, ?_⟩
        simp
      · rw [if_pos hd, if_neg hb]
        have hdel : delEntry ((fid, info) :: rest) fid = rest :=
          delEntry_cons_self info hfid
        rw [show (⟨(fid, info) :: rest, disk, bad⟩ : CleanupState).registry
              = (fid, info) :: rest from rfl, hdel]
        exact ih (disk.erase info.path) bad (n + 1) hndrest
    · rw [if_neg hd]
      have hdel : delEntry ((fid, info) :: rest) fid = rest :=
        delEntry_cons_self info hfid
      rw [show (⟨(fid, info) :: rest, disk, bad⟩ : CleanupState).registry
            = (fid, info) :: rest from rfl, hdel]
      exact ih disk bad n hndrest

theorem countDel_erase_of_ne :
    ∀ (l : List (String × FileInfo)) (p : String) (disk : List String),
      (∀ e ∈ l, e.2.path ≠ p) → countDel l (disk.erase p) = countDel l disk := by
  intro l
  induction l with
  | nil => intro p disk _; rfl
  | cons e rest ih =>
    obtain ⟨fid, info⟩ := e
    intro p disk h
    have hne : info.path ≠ p := h (fid, info) (List.mem_cons_self _ _)
    rw [countDel, countDel]
    by_cases hd : info.path ∈ disk
    · have hd' : info.path ∈ disk.erase p := (List.mem_erase_of_ne hne).mpr hd
      rw [if_pos hd', if_pos hd, List.erase_comm,
        ih p (disk.erase info.path) (fun e he => h e (List.mem_cons_of_mem _ he))]
    · have hd' : info.path ∉ disk.erase p := fun hc =>
        hd ((List.mem_erase_of_ne hne).mp hc)
      rw [if_neg hd', if_neg hd,
        ih p disk (fun e he => h e (List.mem_cons_of_mem _ he))]

theorem countDel_eq_filter_length :
    ∀ (l : List (String × FileInfo)) (disk : List String),
      ((l.map (fun e => e.2.path)).Nodup) →
      countDel l disk = (l.filter (fun e => decide (e.2.path ∈ disk))).length := by
  intro l
  induction l with
  | nil => intro disk _; rfl
  | cons e rest ih =>
    obtain ⟨fid, info⟩ := e
    intro disk hnd
    rw [List.map_cons, List.nodup_cons] at hnd
    obtain ⟨hp, hndrest⟩ := hnd
    have hall : ∀ e ∈ rest, e.2.path ≠ info.path := by
      intro e he hc
      exact hp (hc ▸ List.mem_map_of_mem (fun e => e.2.path) he)
    rw [countDel, List.filter_cons]
    by_cases hd : info.path ∈ disk
    · rw [if_pos hd, countDel_erase_of_ne rest info.path disk hall, ih disk hndrest]
      simp [hd]
    · rw [if_neg hd, ih disk hndrest]
      simp [hd]

theorem parseDepth_nestArr (n : Nat) : parseDepth (nestArr n) = n + 1 := by
  induction n with
  | zero => rfl
  | succ n ih =>
    show parseDepth (.arr [nestArr n]) = n + 2
    rw [parseDepth, parseDepthList, parseDepthList, ih]
    omega

/-! ## Claim theorems -/

theorem convert_strategy_eq (r : String) :
    convert_strategy r =
      if 100000 < r.length then .DIRECT
      else if 50000 < r.length then .DELEGATED_BY_REFERENCE
      else .DELEGATED_INLINE := rfl

/-- C1: the strategy selected for a payload is determined solely by the
payload's character length: length > 100000 selects DIRECT (delegation
skipped), 50000 < length ≤ 100000 selects DELEGATED_BY_REFERENCE (payload
written to a scratch file, producer given the path), length ≤ 50000
selects DELEGATED_INLINE (payload embedded in the instruction); in
particular length 100001 gives DIRECT, lengths 100000 and 50001 give
DELEGATED_BY_REFERENCE, and length 50000 gives DELEGATED_INLINE. -/
theorem C1_strategy_by_size (p q : String) (hpq : p.length = q.length) :
    convert_strategy p = convert_strategy q
    ∧ (100000 < p.length → convert_strategy p = .DIRECT)
    ∧ (p.length ≤ 100000 → 50000 < p.length →
        convert_strategy p = .DELEGATED_BY_REFERENCE)
    ∧ (p.length ≤ 50000 → convert_strategy p = .DELEGATED_INLINE)
    ∧ (p.length = 100001 → convert_strategy p = .DIRECT)
    ∧ (p.length = 100000 → convert_strategy p = .DELEGATED_BY_REFERENCE)
    ∧ (p.length = 50001 → convert_strategy p = .DELEGATED_BY_REFERENCE)
    ∧ (p.length = 50000 → convert_strategy p = .DELEGATED_INLINE) := by
  refine ⟨?_, ?_, ?_, ?_, ?_, ?_, ?_, ?_⟩
  · rw [convert_strategy_eq, convert_strategy_eq, hpq]
  · intro h
    rw [convert_strategy_eq, if_pos h]
  · intro h1 h2
    rw [convert_strategy_eq, if_neg (by omega), if_pos h2]
  · intro h
    rw [convert_strategy_eq, if_neg (by omega), if_neg (by omega)]
  · intro h
    rw [convert_strategy_eq, if_pos (by omega)]
  · intro h
    rw [convert_strategy_eq, if_neg (by omega), if_pos (by omega)]
  · intro h
    rw [convert_strategy_eq, if_neg (by omega), if_pos (by omega)]
  · intro h
    rw [convert_strategy_eq, if_neg (by omega), if_neg (by omega)]

/-- C1 witness: the four boundary lengths, instantiated at concrete
payloads. -/
theorem C1_strategy_by_size_witness :
    convert_strategy (strOfLen 100001) = .DIRECT
    ∧ convert_strategy (strOfLen 100000) = .DELEGATED_BY_REFERENCE
    ∧ convert_strategy (strOfLen 50001) = .DELEGATED_BY_REFERENCE
    ∧ convert_strategy (strOfLen 50000) = .DELEGATED_INLINE := by
  refine ⟨?_, ?_, ?_, ?_⟩
  · exact (C1_strategy_by_size (strOfLen 100001) (strOfLen 100001)
      rfl).2.2.2.2.1 (strOfLen_length 100001)
  · exact (C1_strategy_by_size (strOfLen 100000) (strOfLen 100000)
      rfl).2.2.2.2.2.1 (strOfLen_length 100000)
  · exact (C1_strategy_by_size (strOfLen 50001) (strOfLen 50001)
      rfl).2.2.2.2.2.2.1 (strOfLen_length 50001)
  · exact (C1_strategy_by_size (strOfLen 50000) (strOfLen 50000)
      rfl).2.2.2.2.2.2.2 (strOfLen_length 50000)

/-- C2 counterexample: the payload `[1]` is valid JSON, yet when the
delegated producer path raises, the request fails: the fallback
`direct_json_to_excel` itself raises inside `pd.json_normalize` (a
non-empty list with a non-dict element), the outermost handler catches
it, and the response has `success=False` — refuting the claim that the
final result is always a success built by direct conversion. -/
theorem C2_cex :
    (process_json_data (.arr [.scalar (.int 1)]) "data" (.raised "boom")).success
      = false := rfl

/-- C2 amended: if the delegated producer path raises or produces no new
workbook file, the request's result has exactly the shape of a pure
DIRECT conversion of the same payload (same success flag, reported
filename and sheets, with an annotation noting the path used); in
particular it is a success whenever the direct conversion of the payload
succeeds, and it fails exactly when direct conversion itself fails —
never purely because delegation failed. -/
theorem C2_fallback_is_direct (v : JsonValue) (name msg resp : String) :
    shapeOf (process_json_data v name (.raised msg))
        = shapeOf (process_json_data v name .signaledDirect)
    ∧ shapeOf (process_json_data v name (.content resp []))
        = shapeOf (process_json_data v name .signaledDirect)
    ∧ (process_json_data v name (.raised msg)).success
        = (direct_json_to_excel v).isSome
    ∧ (process_json_data v name (.content resp [])).success
        = (direct_json_to_excel v).isSome
    ∧ (process_json_data v name (.raised msg)).ai_analysis
        = (direct_json_to_excel v).map
            (fun _ => "Fallback conversion used due to: " ++ msg)
    ∧ (process_json_data v name (.content resp [])).ai_analysis
        = (direct_json_to_excel v).map
            (fun _ => "Direct conversion used - AI did not create output file")
    ∧ (process_json_data v name .signaledDirect).sheets = direct_json_to_excel v := by
  cases hd : direct_json_to_excel v <;>
    simp [process_json_data, directResponse, shapeOf, hd]

/-- C3 counterexample: on the empty top-level mapping the key loop of
`direct_json_to_excel` writes no sheet at all, so the conversion produces
no workbook (saving a sheetless workbook raises) — refuting the claim
that every valid JsonValue, including empty containers, yields at least
one sheet. -/
theorem C3_cex : direct_json_to_excel (JsonValue.obj []) = none := rfl

/-- C3 amended: a scalar is wrapped into a single-cell `'Data'` sheet and
the empty list produces an empty `'Data'` sheet with no data rows, and
whenever direct structuring succeeds on a non-empty mapping or on a list
it produces at least one sheet; but the empty mapping produces no sheet:
the conversion fails instead of yielding an empty sheet. -/
theorem C3_at_least_one_sheet (s0 : Scalar) :
    direct_json_to_excel (.scalar s0)
        = some [("Data", [[Cell.text "value"], [Cell.value (.sc s0)]])]
    ∧ direct_json_to_excel (.arr []) = some [("Data", [[]])]
    ∧ direct_json_to_excel (.obj []) = none
    ∧ (∀ (k : String) (v : JsonValue) (rest : List (String × JsonValue))
          (wb : Workbook),
        direct_json_to_excel (.obj ((k, v) :: rest)) = some wb → wb ≠ [])
    ∧ (∀ (xs : List JsonValue) (wb : Workbook),
        direct_json_to_excel (.arr xs) = some wb → wb ≠ []) := by
  refine ⟨rfl, rfl, rfl, ?_, ?_⟩
  · intro k v rest wb h
    exact (direct_obj_elim h).2
  · intro xs wb h
    rw [direct_json_to_excel] at h
    cases hjn : json_normalize xs with
    | none => rw [hjn] at h; cases h
    | some fr =>
      rw [hjn, Option.map_some'] at h
      cases h
      simp

/-- C3 witness: the amended statement evaluated at a concrete scalar, a
concrete non-empty mapping and a concrete non-empty list. -/
theorem C3_at_least_one_sheet_witness :
    direct_json_to_excel (.scalar (.int 7))
        = some [("Data", [[Cell.text "value"], [Cell.value (.sc (.int 7))]])]
    ∧ ([("Summary", [[Cell.text "a"], [Cell.value (.sc (.int 1))]])] : Workbook) ≠ []
    ∧ ([("Data", [[], []])] : Workbook) ≠ [] := by
  refine ⟨(C3_at_least_one_sheet (.int 7)).1, ?_, ?_⟩
  · exact (C3_at_least_one_sheet (.int 0)).2.2.2.1 "a" (.scalar (.int 1)) [] _ rfl
  · exact (C3_at_least_one_sheet (.int 0)).2.2.2.2 [.obj []] _ rfl

/-- C6 counterexample: for the base name `"!! !!"` sanitization keeps
only the middle space and `str.strip` then empties it, so the produced
filename is the bare suffix `_processed.xlsx` with an empty base — no
default base name is substituted, refuting both the claim's character-set
description (which has no strip step) and the non-empty fallback. -/
theorem C6_cex :
    safe_filename Char.isAlphanum "!! !!" = ""
    ∧ xlsx_filename Char.isAlphanum "!! !!" = "_processed.xlsx" := by
  exact ⟨rfl, rfl⟩

/-- C6 amended: the produced filename keeps only the alphanumeric
characters, spaces, hyphens and underscores of the base name (in order),
then strips leading and trailing whitespace, and appends the fixed
suffix `_processed.xlsx`; when sanitization yields the empty string the
empty base is used as-is — the filename is exactly the suffix and no
default base name is substituted. -/
theorem C6_filename_policy (alnum : Char → Bool) (s : String) :
    ((safe_filename alnum s).data).Sublist s.data
    ∧ (∀ c ∈ (safe_filename alnum s).data, keepChar alnum c = true)
    ∧ xlsx_filename alnum s = safe_filename alnum s ++ "_processed.xlsx"
    ∧ (safe_filename alnum s = "" → xlsx_filename alnum s = "_processed.xlsx")
    ∧ (∀ c, ((safe_filename alnum s).data).head? = some c → pyIsSpace c = false)
    ∧ (∀ c, ((safe_filename alnum s).data).getLast? = some c →
        pyIsSpace c = false) := by
  have hdata : (safe_filename alnum s).data
      = stripList (s.data.filter (keepChar alnum)) := rfl
  refine ⟨?_, ?_, rfl, ?_, ?_, ?_⟩
  · rw [hdata]
    exact (stripList_sublist _).trans (List.filter_sublist s.data)
  · intro c hc
    rw [hdata] at hc
    have hmem := (stripList_sublist _).subset hc
    exact (List.mem_filter.mp hmem).2
  · intro h
    unfold xlsx_filename
    rw [h]
    decide
  · intro c hc
    rw [hdata] at hc
    have h1 := head?_of_pre (stripList_pre _) hc
    exact head?_dropWhile _ c h1
  · intro c hc
    rw [hdata] at hc
    unfold stripList at hc
    rw [List.getLast?_reverse] at hc
    exact head?_dropWhile _ c hc

/-- C6 witness: the amended statement evaluated at the base name
`"! !"`, whose sanitized base is empty. -/
theorem C6_filename_policy_witness :
    ((safe_filename Char.isAlphanum "! !").data).Sublist ("! !".data)
    ∧ (∀ c ∈ (safe_filename Char.isAlphanum "! !").data,
        keepChar Char.isAlphanum c = true)
    ∧ xlsx_filename Char.isAlphanum "! !"
        = safe_filename Char.isAlphanum "! !" ++ "_processed.xlsx"
    ∧ xlsx_filename Char.isAlphanum "! !" = "_processed.xlsx" := by
  have h := C6_filename_policy Char.isAlphanum "! !"
  exact ⟨h.1, h.2.1, h.2.2.1, h.2.2.2.1 rfl⟩

/-- C7: fetching an artifact succeeds exactly when the id is registered
and its backing file still exists on disk; when the registry entry exists
but the backing file is missing, the fetch removes the stale entry and
answers NotFound, so a subsequent enumeration no longer includes the
id. -/
theorem C7_get_iff_and_prunes (st : StoreState) (file_id : String) :
    ((∃ p fn, (download_file st file_id).1 = .fileResp p fn)
      ↔ (∃ info, st.registry.lookup file_id = some info ∧ info.path ∈ st.disk))
    ∧ (∀ info, st.registry.lookup file_id = some info → info.path ∉ st.disk →
        (download_file st file_id).1 = .notFound
        ∧ file_id ∉ list_files (download_file st file_id).2) := by
  cases hl : st.registry.lookup file_id with
  | none =>
    have hdl : download_file st file_id = (.notFound, st) := by
      unfold download_file
      rw [hl]
    rw [hdl]
    refine ⟨⟨?_, ?_⟩, ?_⟩
    · rintro ⟨p, fn, h⟩
      cases h
    · rintro ⟨info, hinfo, _⟩
      cases hinfo
    · intro info hinfo
      cases hinfo
  | some info0 =>
    by_cases hd : info0.path ∈ st.disk
    · have hdl : download_file st file_id
          = (.fileResp info0.path info0.filename, st) := by
        unfold download_file
        rw [hl]
        exact if_pos hd
      rw [hdl]
      refine ⟨⟨?_, ?_⟩, ?_⟩
      · intro _
        exact ⟨info0, rfl, hd⟩
      · intro _
        exact ⟨info0.path, info0.filename, rfl⟩
      · intro info hinfo hnd
        cases hinfo
        exact absurd hd hnd
    · have hdl : download_file st file_id
          = (.notFound, ⟨delEntry st.registry file_id, st.disk⟩) := by
        unfold download_file
        rw [hl]
        exact if_neg hd
      rw [hdl]
      refine ⟨⟨?_, ?_⟩, ?_⟩
      · rintro ⟨p, fn, h⟩
        cases h
      · rintro ⟨info, hinfo, hdisk⟩
        cases hinfo
        exact absurd hdisk hd
      · intro info hinfo hnd
        refine ⟨rfl, ?_⟩
        intro hc
        unfold list_files at hc
        rw [List.mem_map] at hc
        obtain ⟨e, he, hfst⟩ := hc
        obtain ⟨_, hne⟩ := mem_delEntry
          (show e ∈ delEntry st.registry file_id from he)
        exact hne hfst

/-- C7 witness: a store with one registered id whose backing file is
gone: the fetch answers NotFound and the id disappears from the
enumeration. -/
theorem C7_get_iff_and_prunes_witness :
    (download_file ⟨[("id1", ⟨"p1", "f1.xlsx"⟩)], []⟩ "id1").1 = .notFound
    ∧ "id1" ∉ list_files (download_file ⟨[("id1", ⟨"p1", "f1.xlsx"⟩)], []⟩ "id1").2 :=
  (C7_get_iff_and_prunes ⟨[("id1", ⟨"p1", "f1.xlsx"⟩)], []⟩ "id1").2
    ⟨"p1", "f1.xlsx"⟩ rfl (by simp)

/-- C4 counterexample: for `{"a": 1, "b": 2}` each scalar key's one-row
frame is written to the same `'Summary'` sheet, the second write
overwriting the first, so the final Summary holds only `b`'s pair — not
all scalar pairs; and for `{"a": 1, "b": {"c": 2}}` the Summary sheet is
created first and the sheet for `b` comes after it, so Summary is not
appended after all other sheets. -/
theorem C4_cex :
    direct_json_to_excel (.obj [("a", .scalar (.int 1)), ("b", .scalar (.int 2))])
      = some [("Summary", [[Cell.text "b"], [Cell.value (.sc (.int 2))]])]
    ∧ direct_json_to_excel
        (.obj [("a", .scalar (.int 1)), ("b", .obj [("c", .scalar (.int 2))])])
      = some [("Summary", [[Cell.text "a"], [Cell.value (.sc (.int 1))]]),
              ("b", [[Cell.text "c"], [Cell.value (.sc (.int 2))]])] :=
  ⟨rfl, rfl⟩

/-- C4 amended: for a top-level mapping with at least one scalar-valued
key, in which no non-scalar key's (truncated) name is `'Summary'`, the
workbook has exactly one sheet named `'Summary'`; its content is the
single `{key: value}` pair of the LAST scalar-valued key in insertion
order (each scalar write overwrites the previous one); and the sheets
appear in order of each name's first write — so Summary sits at the
position of the FIRST scalar-valued key, not after all other sheets. -/
theorem C4_summary_last_scalar (kvs : List (String × JsonValue)) (wb : Workbook)
    (h1 : ∃ p ∈ kvs, p.2.isScalar = true)
    (h2 : ∀ p ∈ kvs, p.2.isScalar = false → sheetName31 p.1 ≠ "Summary")
    (hs : direct_json_to_excel (.obj kvs) = some wb) :
    List.count "Summary" (wb.map Prod.fst) = 1
    ∧ (∃ k s, lastScalar kvs = some (k, s)
        ∧ wb.lookup "Summary" = some (summaryGrid k s))
    ∧ wb.map Prod.fst = (kvs.map sheetNameOf).foldl insertNew [] := by
  obtain ⟨hds, _⟩ := direct_obj_elim hs
  have hnames := dict_sheets_names kvs [] wb hds
  have hcontent := dict_sheets_summary kvs [] wb h2 (Or.inl rfl) hds
  cases hls : lastScalar kvs with
  | none =>
    exfalso
    obtain ⟨p, hp, hscal⟩ := h1
    have hfalse := (lastScalar_none_iff kvs).mp hls p hp
    rw [hfalse] at hscal
    cases hscal
  | some pr =>
    obtain ⟨k, s⟩ := pr
    have hlook : wb.lookup "Summary" = some (summaryGrid k s) := by
      rw [hcontent, hls]
    refine ⟨?_, ⟨k, s, rfl, hlook⟩, hnames⟩
    have hmem : "Summary" ∈ wb.map Prod.fst :=
      List.mem_map_of_mem Prod.fst (mem_of_lookup hlook)
    have hnodup : (wb.map Prod.fst).Nodup := by
      rw [hnames]
      exact nodup_foldl_insertNew _ [] List.nodup_nil
    exact List.count_eq_one_of_mem hnodup hmem

/-- C4 witness: the amended statement at the concrete mapping
`{"a": 1, "b": {"c": 2}, "d": "x"}` — the Summary sheet holds only the
last scalar pair `{"d": "x"}` and sits before the sheet `"b"`. -/
theorem C4_summary_last_scalar_witness :
    List.count "Summary"
        (([("Summary", [[Cell.text "d"], [Cell.value (.sc (.str "x"))]]),
           ("b", [[Cell.text "c"], [Cell.value (.sc (.int 2))]])] : Workbook).map
          Prod.fst) = 1
    ∧ (∃ k s,
        lastScalar [("a", JsonValue.scalar (.int 1)),
            ("b", JsonValue.obj [("c", JsonValue.scalar (.int 2))]),
            ("d", JsonValue.scalar (.str "x"))] = some (k, s)
        ∧ ([("Summary", [[Cell.text "d"], [Cell.value (.sc (.str "x"))]]),
            ("b", [[Cell.text "c"], [Cell.value (.sc (.int 2))]])] :
              Workbook).lookup "Summary" = some (summaryGrid k s))
    ∧ ([("Summary", [[Cell.text "d"], [Cell.value (.sc (.str "x"))]]),
        ("b", [[Cell.text "c"], [Cell.value (.sc (.int 2))]])] : Workbook).map
          Prod.fst
        = ([("a", JsonValue.scalar (.int 1)),
            ("b", JsonValue.obj [("c", JsonValue.scalar (.int 2))]),
            ("d", JsonValue.scalar (.str "x"))].map sheetNameOf).foldl
            insertNew [] :=
  C4_summary_last_scalar
    [("a", JsonValue.scalar (.int 1)),
     ("b", JsonValue.obj [("c", JsonValue.scalar (.int 2))]),
     ("d", JsonValue.scalar (.str "x"))]
    [("Summary", [[Cell.text "d"], [Cell.value (.sc (.str "x"))]]),
     ("b", [[Cell.text "c"], [Cell.value (.sc (.int 2))]])]
    (by decide) (by decide) rfl

/-- C5: a top-level JSON list in which every element is a mapping is
structured as exactly one sheet named `'Data'` with one row per element;
the rows are the flattened elements; the column set is the union of the
flattened dotted keys across all elements; a terminal scalar at nested
key path `a.b.c` flattens to the dotted column `a.b.c`; and a column
missing from a row's record renders as an empty cell (and only then). -/
theorem C5_list_of_mappings (xs : List JsonValue)
    (h : ∀ x ∈ xs, x.isObj = true) :
    ∃ fr : Frame,
      json_normalize xs = some fr
      ∧ direct_json_to_excel (.arr xs) = some [("Data", renderGrid fr)]
      ∧ fr.rows.length = xs.length
      ∧ fr.rows = xs.map (fun x => nested_to_record none x.objKVs)
      ∧ (∀ c, c ∈ fr.columns ↔ ∃ r ∈ fr.rows, ∃ v, (c, v) ∈ r)
      ∧ (∀ (kvs : List (String × JsonValue)) (p : List String) (s : Scalar),
          JsonValue.obj kvs ∈ xs → p ≠ [] →
          getPath (.obj kvs) p = some (.scalar s) →
          (joinDots p, FlatVal.sc s) ∈ nested_to_record none kvs)
      ∧ (∀ r ∈ fr.rows, ∀ (i : Nat) (c : String), fr.columns[i]? = some c →
          (((renderRow fr.columns r)[i]? = some Cell.blank) ↔
            r.lookup c = none)) := by
  have hall : xs.all JsonValue.isObj = true := List.all_eq_true.mpr h
  have hjn := json_normalize_eq_of_all xs hall
  refine ⟨_, hjn, ?_, ?_, ?_, ?_, ?_, ?_⟩
  · rw [direct_json_to_excel, hjn, Option.map_some']
  · dsimp only
    exact List.length_map xs _
  · dsimp only
  · intro c
    dsimp only
    rw [mem_firstDedup, List.mem_flatMap]
    constructor
    · rintro ⟨r, hr, hc⟩
      rw [List.mem_map] at hc
      obtain ⟨x, hx, hfst⟩ := hc
      refine ⟨r, hr, x.2, ?_⟩
      rw [← hfst]
      exact hx
    · rintro ⟨r, hr, v, hv⟩
      exact ⟨r, hr, List.mem_map_of_mem Prod.fst hv⟩
  · intro kvs p s _ hne hg
    exact getPath_scalar_mem p kvs none s hne hg
  · intro r hr i c hic
    exact renderRow_blank_iff _ r i c hic

/-- C5 witness: the statement at the concrete list
`[{"a": {"b": 1}}, {"c": "x"}]`. -/
theorem C5_list_of_mappings_witness :
    ∃ fr : Frame,
      json_normalize [JsonValue.obj [("a", .obj [("b", .scalar (.int 1))])],
          JsonValue.obj [("c", .scalar (.str "x"))]] = some fr
      ∧ direct_json_to_excel
            (.arr [JsonValue.obj [("a", .obj [("b", .scalar (.int 1))])],
              JsonValue.obj [("c", .scalar (.str "x"))]])
          = some [("Data", renderGrid fr)]
      ∧ fr.rows.length
          = [JsonValue.obj [("a", .obj [("b", .scalar (.int 1))])],
             JsonValue.obj [("c", .scalar (.str "x"))]].length
      ∧ fr.rows
          = [JsonValue.obj [("a", .obj [("b", .scalar (.int 1))])],
             JsonValue.obj [("c", .scalar (.str "x"))]].map
              (fun x => nested_to_record none x.objKVs)
      ∧ (∀ c, c ∈ fr.columns ↔ ∃ r ∈ fr.rows, ∃ v, (c, v) ∈ r)
      ∧ (∀ (kvs : List (String × JsonValue)) (p : List String) (s : Scalar),
          JsonValue.obj kvs
              ∈ [JsonValue.obj [("a", .obj [("b", .scalar (.int 1))])],
                 JsonValue.obj [("c", .scalar (.str "x"))]] → p ≠ [] →
          getPath (.obj kvs) p = some (.scalar s) →
          (joinDots p, FlatVal.sc s) ∈ nested_to_record none kvs)
      ∧ (∀ r ∈ fr.rows, ∀ (i : Nat) (c : String), fr.columns[i]? = some c →
          (((renderRow fr.columns r)[i]? = some Cell.blank) ↔
            r.lookup c = none)) :=
  C5_list_of_mappings
    [JsonValue.obj [("a", .obj [("b", .scalar (.int 1))])],
     JsonValue.obj [("c", .scalar (.str "x"))]]
    (by decide)

/-- C8 counterexample: a store holding two files both present on disk
where deleting the first raises: `cleanup_all_files` answers an error,
removes no registry entry at all (the failing entry and the one after it
both remain) and reports no deletion count — refuting the claim that an
individual file-deletion error is skipped and the sweep continues. -/
theorem C8_cex :
    cleanup_all_files ⟨[("1", ⟨"p1", "f1.xlsx"⟩), ("2", ⟨"p2", "f2.xlsx"⟩)],
        ["p1", "p2"], ["p1"]⟩
      = (.err, ⟨[("1", ⟨"p1", "f1.xlsx"⟩), ("2", ⟨"p2", "f2.xlsx"⟩)],
          ["p1", "p2"], ["p1"]⟩) := rfl

/-- C8 amended: when no `os.remove` raises, bulk clear deletes exactly
the files still on disk, reports their count (on an empty store: 0
without error), and removes every registry entry — entries whose files
were already gone are removed but not counted (with pairwise-distinct
paths the count is exactly the number of entries whose file exists);
however a raising `os.remove` aborts the sweep: exactly when no such
error occurs does the registry end up empty, otherwise the failing and
all later entries survive and an error is reported instead of a count. -/
theorem C8_clear_all (reg : List (String × FileInfo)) (disk bad : List String)
    (hnd : (reg.map Prod.fst).Nodup) :
    ((∀ e ∈ reg, e.2.path ∉ bad) →
        (cleanup_all_files ⟨reg, disk, bad⟩).1 = .ok (countDel reg disk)
        ∧ (cleanup_all_files ⟨reg, disk, bad⟩).2.registry = [])
    ∧ ((reg.map (fun e => e.2.path)).Nodup →
        countDel reg disk
          = (reg.filter (fun e => decide (e.2.path ∈ disk))).length)
    ∧ ((∃ m, (cleanup_all_files ⟨reg, disk, bad⟩).1 = .ok m)
        ↔ (cleanup_all_files ⟨reg, disk, bad⟩).2.registry = []) := by
  have hloop : cleanup_all_files ⟨reg, disk, bad⟩
      = cleanup_loop reg ⟨reg, disk, bad⟩ 0 := rfl
  refine ⟨?_, ?_, ?_⟩
  · intro hgood
    have h1 := cleanup_loop_ok reg ⟨reg, disk, bad⟩ 0 hgood
    constructor
    · rw [hloop, h1, Nat.zero_add]
    · rw [hloop]
      exact cleanup_loop_reg_nil reg ⟨reg, disk, bad⟩ 0 _ h1
        (fun e he => List.mem_map_of_mem Prod.fst he)
  · intro hp
    exact countDel_eq_filter_length reg disk hp
  · rw [hloop]
    rcases cleanup_loop_ok_or_err reg disk bad 0 hnd with ⟨m, hm⟩ | ⟨herr, hreg⟩
    · constructor
      · intro _
        exact cleanup_loop_reg_nil reg ⟨reg, disk, bad⟩ 0 m hm
          (fun e he => List.mem_map_of_mem Prod.fst he)
      · intro _
        exact ⟨m, hm⟩
    · constructor
      · rintro ⟨m, hm⟩
        rw [herr] at hm
        cases hm
      · intro h0
        exact absurd h0 hreg

/-- C8 witness: a store with one deletable file and one entry whose file
is already gone, and no raising deletions: the sweep reports one physical
deletion and empties the registry. -/
theorem C8_clear_all_witness :
    (cleanup_all_files ⟨[("1", ⟨"p1", "f1.xlsx"⟩), ("2", ⟨"gone", "f2.xlsx"⟩)],
        ["p1"], []⟩).1
      = .ok (countDel [("1", ⟨"p1", "f1.xlsx"⟩), ("2", ⟨"gone", "f2.xlsx"⟩)] ["p1"])
    ∧ (cleanup_all_files ⟨[("1", ⟨"p1", "f1.xlsx"⟩), ("2", ⟨"gone", "f2.xlsx"⟩)],
        ["p1"], []⟩).2.registry = []
    ∧ countDel [("1", ⟨"p1", "f1.xlsx"⟩), ("2", ⟨"gone", "f2.xlsx"⟩)] ["p1"]
        = (([("1", ⟨"p1", "f1.xlsx"⟩), ("2", ⟨"gone", "f2.xlsx"⟩)] :
              List (String × FileInfo)).filter
            (fun e => decide (e.2.path ∈ ["p1"]))).length
    ∧ ((∃ m, (cleanup_all_files ⟨[("1", ⟨"p1", "f1.xlsx"⟩),
          ("2", ⟨"gone", "f2.xlsx"⟩)], ["p1"], []⟩).1 = .ok m)
        ↔ (cleanup_all_files ⟨[("1", ⟨"p1", "f1.xlsx"⟩),
            ("2", ⟨"gone", "f2.xlsx"⟩)], ["p1"], []⟩).2.registry = [])
    ∧ countDel [("1", ⟨"p1", "f1.xlsx"⟩), ("2", ⟨"gone", "f2.xlsx"⟩)] ["p1"] = 1 := by
  have h := C8_clear_all [("1", ⟨"p1", "f1.xlsx"⟩), ("2", ⟨"gone", "f2.xlsx"⟩)]
    ["p1"] [] (by decide)
  have hA := h.1 (by simp)
  exact ⟨hA.1, hA.2, h.2.1 (by decide), h.2.2, by decide⟩

/-- C9 counterexample: the structuring path is call recursion, not a
work-list: its call depth on the `recursionLimit`-fold nested list
already exceeds the raised interpreter limit of 10000 (the program would
raise RecursionError there), while depth 0 input needs depth 1 —
refuting the claim that recursion depth does not grow with nesting. -/
theorem C9_cex :
    parseDepth (nestArr 0) = 1
    ∧ recursionLimit < parseDepth (nestArr recursionLimit) := by
  constructor
  · rfl
  · rw [parseDepth_nestArr]
    exact Nat.lt_succ_self _

/-- C9 amended: direct structuring relies on call recursion whose depth
grows one-for-one with the nesting depth of the input (depth `n` nesting
needs `n + 1` frames, so no fixed bound covers all inputs); the program
merely raises the interpreter recursion limit to 10000 as a workaround,
and inputs nested beyond that limit exhaust the stack instead of
converting. -/
theorem C9_recursion_depth_grows :
    (∀ n, parseDepth (nestArr n) = n + 1)
    ∧ (∀ B, B < parseDepth (nestArr B))
    ∧ recursionLimit = 10000 :=
  ⟨parseDepth_nestArr,
   fun B => by rw [parseDepth_nestArr]; omega,
   rfl⟩

end WebApp
